import Mathlib

set_option maxHeartbeats 1000000
set_option maxRecDepth 4000

namespace CryptoAnalysis

/-! Shallow embedding of the Forecasting and Scoring Engine of the
CryptoAnalysis repository: `src/frontend/agents/scorer.py` and
`src/frontend/notebooks/predict/predict.py`.  DataFrames are modelled as
lists of typed rows in frame order; Python floats are modelled as rationals;
fallible library calls are modelled with `Option`. -/

/-- Embedding of `_calculate_prediction_score` (scorer.py, lines 3-24):
the tiered step function from combined gain percentage to an integer score. -/
def calculate_prediction_score (gain_percent : ℚ) : ℤ :=
  if gain_percent < 0 then 0
  else if 0 ≤ gain_percent ∧ gain_percent < 2 then 1
  else if 2 ≤ gain_percent ∧ gain_percent < 4 then 2
  else if 4 ≤ gain_percent ∧ gain_percent < 6 then 3
  else if 6 ≤ gain_percent ∧ gain_percent < 8 then 4
  else 8

/-- Claim C1: the prediction-tier score is the pure step function of the gain
percentage with half-open lower-inclusive boundaries: `g < 0` yields 0,
`0 <= g < 2` yields 1, `2 <= g < 4` yields 2, `4 <= g < 6` yields 3,
`6 <= g < 8` yields 4, and `g >= 8` yields 8, including the discontinuity:
`score 7.99 = 4`, `score 8.0 = 8`, `score (-0.01) = 0`, `score 0.0 = 1`. -/
theorem prediction_score_tiers (g : ℚ) :
    (g < 0 → calculate_prediction_score g = 0)
    ∧ (0 ≤ g → g < 2 → calculate_prediction_score g = 1)
    ∧ (2 ≤ g → g < 4 → calculate_prediction_score g = 2)
    ∧ (4 ≤ g → g < 6 → calculate_prediction_score g = 3)
    ∧ (6 ≤ g → g < 8 → calculate_prediction_score g = 4)
    ∧ (8 ≤ g → calculate_prediction_score g = 8)
    ∧ calculate_prediction_score (799/100) = 4
    ∧ calculate_prediction_score 8 = 8
    ∧ calculate_prediction_score (-1/100) = 0
    ∧ calculate_prediction_score 0 = 1 := by
  unfold calculate_prediction_score
  refine ⟨?_, ?_, ?_, ?_, ?_, ?_, by norm_num, by norm_num, by norm_num, by norm_num⟩
  · intro h
    rw [if_pos h]
  · intro h0 h2
    rw [if_neg (by linarith), if_pos ⟨h0, h2⟩]
  · intro h2 h4
    rw [if_neg (by linarith), if_neg (by push_neg; intro; linarith), if_pos ⟨h2, h4⟩]
  · intro h4 h6
    rw [if_neg (by linarith), if_neg (by push_neg; intro; linarith),
      if_neg (by push_neg; intro; linarith), if_pos ⟨h4, h6⟩]
  · intro h6 h8
    rw [if_neg (by linarith), if_neg (by push_neg; intro; linarith),
      if_neg (by push_neg; intro; linarith), if_neg (by push_neg; intro; linarith),
      if_pos ⟨h6, h8⟩]
  · intro h8
    rw [if_neg (by linarith), if_neg (by push_neg; intro; linarith),
      if_neg (by push_neg; intro; linarith), if_neg (by push_neg; intro; linarith),
      if_neg (by push_neg; intro; linarith)]

/-- Witness for claim C1 at concrete gains. -/
theorem prediction_score_tiers_witness :
    calculate_prediction_score 5 = 3 ∧ calculate_prediction_score 1 = 1 := by
  constructor
  · exact (prediction_score_tiers 5).2.2.2.1 (by norm_num) (by norm_num)
  · exact (prediction_score_tiers 1).2.1 (by norm_num) (by norm_num)

/-- The ASCII lower-to-upper case mapping used by Python `str.upper()` on the
ASCII fragment (all names occurring in this repository are ASCII). -/
def ascii_case_table : List (Char × Char) :=
  [('a', 'A'), ('b', 'B'), ('c', 'C'), ('d', 'D'), ('e', 'E'), ('f', 'F'),
   ('g', 'G'), ('h', 'H'), ('i', 'I'), ('j', 'J'), ('k', 'K'), ('l', 'L'),
   ('m', 'M'), ('n', 'N'), ('o', 'O'), ('p', 'P'), ('q', 'Q'), ('r', 'R'),
   ('s', 'S'), ('t', 'T'), ('u', 'U'), ('v', 'V'), ('w', 'W'), ('x', 'X'),
   ('y', 'Y'), ('z', 'Z')]

/-- One character of Python `str.upper()`: ASCII lowercase letters are mapped
to the corresponding uppercase letter, all other characters are unchanged. -/
def py_upper_char (c : Char) : Char :=
  (ascii_case_table.lookup c).getD c

/-- Embedding of Python `str.upper()` on ASCII strings. -/
def py_upper (s : String) : String :=
  ⟨s.data.map py_upper_char⟩

/-- The user-defined mapping from news names (uppercase) to canonical symbols
(scorer.py, lines 46-58). -/
def name_to_symbol_map : List (String × String) :=
  [("BITCOIN", "BTC"),
   ("ETHEREUM", "ETH"),
   ("DOGECOIN", "DOGE"),
   ("AVAXUSDT", "AVAX"),
   ("XRP", "XRP"),
   ("SUI", "SUI20947"),
   ("ADA", "ADA"),
   ("TONCOIN", "TON11419"),
   ("SOL", "SOL"),
   ("BNB", "BNB"),
   ("TRX", "TRX")]

/-- Embedding of `standardize_name` (scorer.py, lines 60-65): uppercase the
source name, look it up in the mapping, fall back to the uppercased name. -/
def standardize_name (long_name : String) : String :=
  let upper_name := py_upper long_name
  (name_to_symbol_map.lookup upper_name).getD upper_name

/-- A row of the predictions DataFrame handed to `run_scoring_flow`.  The
`prediction_score` column does not exist before the call (`none`); the code
writes it in place at scorer.py line 87. -/
structure PredRow where
  coin_name : String
  current_price : ℚ
  combined_prediction : ℚ
  combined_gain_percent : ℚ
  prediction_score : Option ℤ
deriving DecidableEq, Repr

/-- A row of the sentiments DataFrame (columns `coin_name`, `label`). -/
structure SentRow where
  coin_name : String
  label : String
deriving DecidableEq, Repr

/-- A row of the scored output DataFrame of `run_scoring_flow`
(columns Coin Name, Current Price, Estimated Price, Combined Gain %,
Prediction Score, Sentiment Score, Total Score). -/
structure ScoreRow where
  coin_name : String
  current_price : ℚ
  combined_prediction : ℚ
  combined_gain_percent : ℚ
  prediction_score : ℤ
  sentiment_score : ℚ
  total_score : ℚ
deriving DecidableEq, Repr

/-- The group of sentiment rows for one (already standardized) coin name:
the rows `groupby('coin_name')` collects for that key. -/
def sentimentGroup (sents : List SentRow) (c : String) : List SentRow :=
  sents.filter (fun r => r.coin_name = c)

/-- Embedding of scorer.py lines 74-84: the per-coin sentiment score table
produced by `value_counts().unstack()` plus the `positive/total` ratio, viewed
as a lookup function.  A coin with no sentiment rows has no row in that table
(`none`); `value_counts` counts every label value, so `total` is the full
group size. -/
def sentiment_score_table (sents : List SentRow) (c : String) : Option ℚ :=
  let g := sentimentGroup sents c
  if g.isEmpty then none
  else some (if 0 < g.length then
    (g.countP (fun r => r.label = "positive") : ℚ) / (g.length : ℚ)
  else 0)

/-- Sorting relation of scorer.py line 118: Total Score descending. -/
def totalDesc (a b : ScoreRow) : Prop :=
  b.total_score ≤ a.total_score

instance : DecidableRel totalDesc := fun a b =>
  inferInstanceAs (Decidable (b.total_score ≤ a.total_score))

/-- The value of `run_scoring_flow`: the returned output frame plus the
post-call states of the two argument frames (the code mutates both in place:
line 68 rewrites `coin_name` in the sentiments frame, line 87 adds the
`prediction_score` column to the predictions frame). -/
structure FlowResult where
  output : List ScoreRow
  predictions_df : List PredRow
  sentiments_df : List SentRow
deriving DecidableEq, Repr

/-- Step 1 of `run_scoring_flow` (scorer.py, lines 43-68): when the sentiments
frame is nonempty, its `coin_name` column is overwritten in place with the
standardized names. -/
def std_sents (sentiments_df : List SentRow) : List SentRow :=
  if sentiments_df.isEmpty then sentiments_df
  else sentiments_df.map (fun r => { r with coin_name := standardize_name r.coin_name })

/-- Step 3 of `run_scoring_flow` (scorer.py, line 87): the `prediction_score`
column is written into the predictions frame in place. -/
def scored_preds (predictions_df : List PredRow) : List PredRow :=
  predictions_df.map (fun r =>
    { r with prediction_score := some (calculate_prediction_score r.combined_gain_percent) })

/-- Steps 4-6 of `run_scoring_flow` (scorer.py, lines 89-115): left merge of
the scored predictions with the per-coin sentiment scores (the groupby keys
are distinct, so the merge is a lookup keeping the left frame's order),
`fillna(0)`, the total score, and the column selection. -/
def merged_rows (predictions_df : List PredRow) (sentiments_df : List SentRow) :
    List ScoreRow :=
  (scored_preds predictions_df).map (fun r =>
    let ps := r.prediction_score.getD 0
    let ss := (sentiment_score_table (std_sents sentiments_df) r.coin_name).getD 0
    { coin_name := r.coin_name
      current_price := r.current_price
      combined_prediction := r.combined_prediction
      combined_gain_percent := r.combined_gain_percent
      prediction_score := ps
      sentiment_score := ss
      total_score := (ps : ℚ) + ss })

/-- Embedding of `run_scoring_flow` (scorer.py, lines 26-122).  The final step
(line 118) sorts by Total Score descending; pandas reverses the key column,
argsorts it ascending and reverses the index again, which in the insertion
sort regime of numpy's introsort is the stable descending sort modelled
here. -/
def run_scoring_flow (predictions_df : List PredRow) (sentiments_df : List SentRow) :
    FlowResult :=
  ⟨(merged_rows predictions_df sentiments_df).insertionSort totalDesc,
    scored_preds predictions_df,
    std_sents sentiments_df⟩

/-! ### Helper lemmas about lookups and case mapping -/

theorem lookup_mem_snd {α β : Type} [BEq α] (a : α) (b : β) :
    ∀ ps : List (α × β), ps.lookup a = some b → b ∈ ps.map Prod.snd := by
  intro ps
  induction ps with
  | nil => intro h; simp [List.lookup] at h
  | cons p ps ih =>
    obtain ⟨k, v⟩ := p
    intro h
    rw [List.lookup] at h
    by_cases hak : (a == k) = true
    · rw [hak] at h
      simp only [List.map_cons, List.mem_cons]
      exact Or.inl (Option.some.inj h).symm
    · rw [Bool.not_eq_true] at hak
      rw [hak] at h
      exact List.mem_cons_of_mem _ (ih h)

theorem upper_chars_not_lower :
    ∀ u ∈ ascii_case_table.map Prod.snd, ascii_case_table.lookup u = none := by
  decide

theorem py_upper_char_idem (c : Char) :
    py_upper_char (py_upper_char c) = py_upper_char c := by
  unfold py_upper_char
  cases h : ascii_case_table.lookup c with
  | none =>
    simp only [Option.getD_none]
    rw [h]
    rfl
  | some u =>
    have hu : u ∈ ascii_case_table.map Prod.snd := lookup_mem_snd c u _ h
    simp only [Option.getD_some]
    rw [upper_chars_not_lower u hu]
    rfl

theorem map_py_upper_char_idem :
    ∀ l : List Char, (l.map py_upper_char).map py_upper_char = l.map py_upper_char := by
  intro l
  induction l with
  | nil => rfl
  | cons c l ih => simp only [List.map_cons, py_upper_char_idem, ih]

theorem py_upper_idem (s : String) : py_upper (py_upper s) = py_upper s := by
  show String.mk ((s.data.map py_upper_char).map py_upper_char)
      = String.mk (s.data.map py_upper_char)
  rw [map_py_upper_char_idem]

theorem standardize_name_def (s : String) :
    standardize_name s
      = (name_to_symbol_map.lookup (py_upper s)).getD (py_upper s) := rfl

theorem standardize_fixes_range :
    ∀ v ∈ name_to_symbol_map.map Prod.snd, standardize_name v = v := by
  decide

/-- Claim C9: the name-reconciliation function is idempotent: every symbol in
the range of the mapping is a fixed point, every already-uppercase symbol
absent from the table is a fixed point, and applying the function twice
always equals applying it once. -/
theorem standardize_name_idempotent :
    (∀ v ∈ name_to_symbol_map.map Prod.snd, standardize_name v = v)
    ∧ (∀ s : String, py_upper s = s → name_to_symbol_map.lookup s = none →
        standardize_name s = s)
    ∧ (∀ s : String, standardize_name (standardize_name s) = standardize_name s) := by
  have habsent : ∀ s : String, py_upper s = s → name_to_symbol_map.lookup s = none →
      standardize_name s = s := by
    intro s hup hnone
    rw [standardize_name_def, hup, hnone, Option.getD_none]
  refine ⟨standardize_fixes_range, habsent, ?_⟩
  intro s
  rw [standardize_name_def s]
  cases h : name_to_symbol_map.lookup (py_upper s) with
  | none =>
    rw [Option.getD_none]
    exact habsent (py_upper s) (py_upper_idem s) h
  | some v =>
    rw [Option.getD_some]
    exact standardize_fixes_range v (lookup_mem_snd _ v _ h)

/-- Witness for claim C9 at concrete symbols. -/
theorem standardize_name_idempotent_witness :
    standardize_name "BTC" = "BTC"
    ∧ standardize_name "ZEC" = "ZEC"
    ∧ standardize_name (standardize_name "Bitcoin") = standardize_name "Bitcoin" := by
  refine ⟨?_, ?_, standardize_name_idempotent.2.2 "Bitcoin"⟩
  · exact standardize_name_idempotent.1 "BTC" (by decide)
  · exact standardize_name_idempotent.2.1 "ZEC" (by decide) (by decide)

/-! ### The scoring flow: merge totality, sentiment aggregation, sorting -/

/-- Refinement-side definition following the spec's words (§4.2 Sentiment
aggregation): group sentiment records by the mapped symbol; the score is the
count of "positive" records over the total record count for that symbol, and
a symbol with zero records scores 0. -/
def spec_sentiment_score (sentiments : List SentRow) (c : String) : ℚ :=
  let g := (sentiments.map (fun r => { r with coin_name := standardize_name r.coin_name })).filter
    (fun r => r.coin_name = c)
  if g.length = 0 then 0
  else (g.countP (fun r => r.label = "positive") : ℚ) / (g.length : ℚ)

theorem std_sents_eq (sents : List SentRow) :
    std_sents sents
      = sents.map (fun r => { r with coin_name := standardize_name r.coin_name }) := by
  cases sents with
  | nil => rfl
  | cons a l => rw [std_sents, if_neg (by simp)]

theorem sentiment_table_spec (sents : List SentRow) (c : String) :
    (sentiment_score_table (std_sents sents) c).getD 0 = spec_sentiment_score sents c := by
  rw [std_sents_eq]
  unfold sentiment_score_table spec_sentiment_score sentimentGroup
  by_cases h :
    ((sents.map (fun r => { r with coin_name := standardize_name r.coin_name })).filter
      (fun r => r.coin_name = c)).isEmpty = true
  · rw [if_pos h, if_pos (by rwa [List.isEmpty_iff_length_eq_zero] at h)]
    rfl
  · have hne : ((sents.map (fun r => { r with coin_name := standardize_name r.coin_name })).filter
        (fun r => r.coin_name = c)).length ≠ 0 := fun hlen =>
      h (List.isEmpty_iff_length_eq_zero.mpr hlen)
    rw [if_neg h, Option.getD_some, if_pos (Nat.pos_of_ne_zero hne), if_neg hne]

theorem countP_eq_one_of_nodup_map {γ : Type} (f : γ → String) :
    ∀ l : List γ, (l.map f).Nodup → ∀ x ∈ l, l.countP (fun y => f y = f x) = 1 := by
  intro l
  induction l with
  | nil => intro _ x hx; cases hx
  | cons a l ih =>
    intro hnd x hx
    rw [List.map_cons, List.nodup_cons] at hnd
    obtain ⟨ha, hnd'⟩ := hnd
    rw [List.countP_cons]
    rcases List.mem_cons.mp hx with rfl | hx'
    · have h0 : l.countP (fun y => f y = f x) = 0 := by
        rw [List.countP_eq_zero]
        intro y hy hfy
        exact ha (of_decide_eq_true hfy ▸ List.mem_map_of_mem f hy)
      simp [h0]
    · have h1 := ih hnd' x hx'
      have hne : ¬ f a = f x := fun he => ha (he ▸ List.mem_map_of_mem f hx')
      simp [h1, hne]

/-- Claim C2: every asset of the prediction table appears exactly once in the
scored output, its sentiment score is positives over total under the mapped
symbol, and an asset with zero matching sentiment records gets score 0 via the
left-merge default fill rather than being excluded. -/
theorem scoring_flow_merge_total (preds : List PredRow) (sents : List SentRow)
    (hnd : (preds.map (fun r => r.coin_name)).Nodup) (r : PredRow) (hr : r ∈ preds) :
    ((run_scoring_flow preds sents).output.countP
        (fun s => s.coin_name = r.coin_name)) = 1
    ∧ ∀ s ∈ (run_scoring_flow preds sents).output, s.coin_name = r.coin_name →
        s.sentiment_score = spec_sentiment_score sents r.coin_name := by
  have hperm : ((run_scoring_flow preds sents).output).Perm (merged_rows preds sents) :=
    List.perm_insertionSort totalDesc _
  constructor
  · rw [hperm.countP_eq]
    unfold merged_rows scored_preds
    rw [List.countP_map, List.countP_map]
    exact countP_eq_one_of_nodup_map (fun y => y.coin_name) preds hnd r hr
  · intro s hs hsc
    have hsm : s ∈ merged_rows preds sents := hperm.mem_iff.mp hs
    unfold merged_rows at hsm
    obtain ⟨y, _, hys⟩ := List.mem_map.mp hsm
    subst hys
    have hcoin : y.coin_name = r.coin_name := hsc
    calc (sentiment_score_table (std_sents sents) y.coin_name).getD 0
        = spec_sentiment_score sents y.coin_name := sentiment_table_spec sents y.coin_name
      _ = spec_sentiment_score sents r.coin_name := by rw [hcoin]

/-- Witness for claim C2: XRP has no sentiment rows, yet appears exactly once
in the output, with the default-fill sentiment score. -/
theorem scoring_flow_merge_total_witness :
    ((run_scoring_flow
        [⟨"BTC", 60000, 63000, 5, none⟩, ⟨"XRP", 1/2, 49/100, -2, none⟩]
        [⟨"BITCOIN", "positive"⟩, ⟨"BITCOIN", "negative"⟩,
          ⟨"BITCOIN", "positive"⟩]).output.countP
      (fun s => s.coin_name = "XRP")) = 1
    ∧ ∀ s ∈ (run_scoring_flow
        [⟨"BTC", 60000, 63000, 5, none⟩, ⟨"XRP", 1/2, 49/100, -2, none⟩]
        [⟨"BITCOIN", "positive"⟩, ⟨"BITCOIN", "negative"⟩,
          ⟨"BITCOIN", "positive"⟩]).output,
        s.coin_name = "XRP" →
        s.sentiment_score = spec_sentiment_score
          [⟨"BITCOIN", "positive"⟩, ⟨"BITCOIN", "negative"⟩,
            ⟨"BITCOIN", "positive"⟩] "XRP" :=
  scoring_flow_merge_total
    [⟨"BTC", 60000, 63000, 5, none⟩, ⟨"XRP", 1/2, 49/100, -2, none⟩]
    [⟨"BITCOIN", "positive"⟩, ⟨"BITCOIN", "negative"⟩, ⟨"BITCOIN", "positive"⟩]
    (by decide) ⟨"XRP", 1/2, 49/100, -2, none⟩ (by simp)

/-- Claim C3 (code bug): at this input the spec requires the `error`-labelled
row to be excluded from aggregation (sentiment score 1/1 = 1), but the code
counts every label in the total record count and yields 1/2 — an `error`
label behaves exactly like `neutral`. -/
theorem scoring_flow_counts_error_label :
    (run_scoring_flow [⟨"BTC", 60000, 63000, 5, none⟩]
        [⟨"BITCOIN", "positive"⟩, ⟨"BITCOIN", "error"⟩]).output
      = [⟨"BTC", 60000, 63000, 5, 3, 1/2, 7/2⟩]
    ∧ (1 : ℚ)/2 ≠ 1 := by
  constructor
  · simp [run_scoring_flow, merged_rows, scored_preds, std_sents, sentiment_score_table,
      sentimentGroup, standardize_name, py_upper, py_upper_char, ascii_case_table,
      name_to_symbol_map, calculate_prediction_score, totalDesc, List.insertionSort,
      List.orderedInsert, List.lookup]
    norm_num
  · norm_num

instance : IsTotal ScoreRow totalDesc :=
  ⟨fun a b => le_total b.total_score a.total_score⟩

instance : IsTrans ScoreRow totalDesc :=
  ⟨fun _ _ _ hab hbc => le_trans hbc hab⟩

/-- Claim C4 (descending-order part; the stability part fails on the code,
see RESULTS): the output of `run_scoring_flow` is sorted by Total Score
descending. -/
theorem scoring_flow_output_sorted (preds : List PredRow) (sents : List SentRow) :
    List.Sorted totalDesc (run_scoring_flow preds sents).output :=
  List.sorted_insertionSort totalDesc (merged_rows preds sents)

/-- Claim C8 (counterexample): `run_scoring_flow` is not pure over its inputs:
after the call the predictions frame has gained the `prediction_score` column
and the sentiments frame's `coin_name` values have been rewritten in place. -/
theorem run_scoring_flow_not_pure :
    ¬ ((run_scoring_flow [⟨"BTC", 60000, 63000, 5, none⟩]
          [⟨"Bitcoin", "positive"⟩]).predictions_df
        = [⟨"BTC", 60000, 63000, 5, none⟩]
      ∧ (run_scoring_flow [⟨"BTC", 60000, 63000, 5, none⟩]
          [⟨"Bitcoin", "positive"⟩]).sentiments_df
        = [⟨"Bitcoin", "positive"⟩]) := by
  simp [run_scoring_flow, scored_preds, std_sents, standardize_name, py_upper,
    py_upper_char, ascii_case_table, name_to_symbol_map, calculate_prediction_score]

/-- Claim C8 (amended): `run_scoring_flow` mutates both inputs in place: it
writes the `prediction_score` column into the predictions frame and rewrites
the sentiments frame's `coin_name` values through the fixed mapping; the
output itself is computed solely from the supplied values. -/
theorem run_scoring_flow_mutation_effect (preds : List PredRow) (sents : List SentRow) :
    (run_scoring_flow preds sents).predictions_df
        = preds.map (fun r =>
          { r with prediction_score := some (calculate_prediction_score r.combined_gain_percent) })
    ∧ (run_scoring_flow preds sents).sentiments_df
        = sents.map (fun r => { r with coin_name := standardize_name r.coin_name }) :=
  ⟨rfl, std_sents_eq sents⟩

/-! ### The series forecaster: `predict.py` -/

/-- Python `round(x, n)` rounds half to even (banker's rounding): the integer
part of `q` at half-fraction goes to the even neighbour. -/
def round_half_even (q : ℚ) : ℤ :=
  if q - ⌊q⌋ < 1/2 then ⌊q⌋
  else if 1/2 < q - ⌊q⌋ then ⌊q⌋ + 1
  else if ⌊q⌋ % 2 = 0 then ⌊q⌋ else ⌊q⌋ + 1

/-- Python `round(x, 2)`: round half to even at two decimal places. -/
def round2 (q : ℚ) : ℚ :=
  (round_half_even (q * 100) : ℚ) / 100

/-- The candidate ARIMA orders of `find_best_arima_order` (predict.py, lines
86-88, 101): `itertools.product(range(0, 4), range(0, 2), range(0, 4))`,
with `p` outermost, then `d`, then `q`. -/
def arima_grid : List (ℕ × ℕ × ℕ) :=
  (List.range 4).flatMap fun p =>
    (List.range 2).flatMap fun d =>
      (List.range 4).map fun q => (p, d, q)

/-- Embedding of the inner `evaluate_arima_model` (predict.py, lines 90-98):
the external statsmodels fit/forecast/MSE computation is the oracle `fit`
(`none` models any exception); a failed candidate is assigned an MSE of
positive infinity (`⊤`) and no fitted model instead of raising. -/
def evaluate_arima_model {μ : Type}
    (fit : List ℚ → List ℚ → ℕ × ℕ × ℕ → Option (ℚ × μ))
    (train test : List ℚ) (arima_order : ℕ × ℕ × ℕ) : WithTop ℚ × Option μ :=
  match fit train test arima_order with
  | some (mse, model_fit) => ((mse : WithTop ℚ), some model_fit)
  | none => (⊤, none)

/-- Python `min(..., key=...)`: fold keeping the current best, replacing it
only when the next key is strictly smaller (so the first minimum wins). -/
def firstMinBy {α β : Type} [LinearOrder β] (key : α → β) (b : α) (l : List α) : α :=
  l.foldl (fun acc x => if key x < key acc then x else acc) b

/-- Python `min(iterable, key=...)` over a list (`none` on the empty list,
where CPython raises `ValueError`). -/
def pymin {α β : Type} [LinearOrder β] (key : α → β) : List α → Option α
  | [] => none
  | x :: xs => some (firstMinBy key x xs)

/-- Embedding of `find_best_arima_order` (predict.py, lines 75-106): score
all 32 grid candidates and return `min(results, key=lambda x: x[1])`. -/
def find_best_arima_order {μ : Type}
    (fit : List ℚ → List ℚ → ℕ × ℕ × ℕ → Option (ℚ × μ))
    (train test : List ℚ) :
    Option ((ℕ × ℕ × ℕ) × WithTop ℚ × Option μ) :=
  pymin (fun x => x.2.1)
    (arima_grid.map (fun o => (o, evaluate_arima_model fit train test o)))

/-- Embedding of Python `s.replace("-USD", "")`: remove every (left-to-right,
non-overlapping) occurrence of `-USD`. -/
def removeUSD : List Char → List Char
  | [] => []
  | '-' :: 'U' :: 'S' :: 'D' :: rest => removeUSD rest
  | c :: rest => c :: removeUSD rest

/-- `symbol.replace('-USD', '')` at the string level (predict.py, line 197). -/
def strip_usd (s : String) : String :=
  ⟨removeUSD s.data⟩

/-- The result dictionary of `predict_single_crypto` (predict.py, lines
199-208). -/
structure PredictionResult where
  coin_name : String
  arima_gain_percent : ℚ
  xgboost_gain_percent : ℚ
  combined_gain_percent : ℚ
  current_price : ℚ
  arima_prediction : ℚ
  xgboost_prediction : ℚ
  combined_prediction : ℚ
deriving DecidableEq, Repr

/-- The external collaborators of `predict_single_crypto`, abstracted as
oracles; `none` models a raised exception (all are caught by the per-asset
`try/except`): `download` is `yf.download(...)[['Close']].dropna()` as the
list of closing prices, `fitEval` is the statsmodels fit/forecast/MSE body of
`evaluate_arima_model`, `fullForecast` is the refit of the selected order on
the full series read off at the horizon index (lines 178-180), and
`xgbPredict` is the whole XGBoost feature/training/prediction path (lines
162-185). -/
structure CryptoEnv (μ : Type) where
  download : String → Option (List ℚ)
  fitEval : List ℚ → List ℚ → ℕ × ℕ × ℕ → Option (ℚ × μ)
  fullForecast : List ℚ → ℕ × ℕ × ℕ → Option ℚ
  xgbPredict : List ℚ → Option ℚ

/-- Embedding of `predict_single_crypto` (predict.py, lines 132-215): any
failure (missing data, fewer than 30 closing prices, any model exception,
zero current price) yields `None`; otherwise the three forecasts are combined
and converted to gain percentages against the most recent closing value. -/
def predict_single_crypto {μ : Type} (env : CryptoEnv μ) (symbol : String) :
    Option PredictionResult :=
  match env.download symbol with
  | none => none
  | some closes =>
    if closes.length < 30 then none
    else
      let train_size := closes.length * 4 / 5
      let train := closes.take train_size
      let test := closes.drop train_size
      match find_best_arima_order env.fitEval train test with
      | none => none
      | some best =>
        match env.fullForecast closes best.1 with
        | none => none
        | some arima_price_prediction =>
          match env.xgbPredict closes with
          | none => none
          | some xgb_price_prediction =>
            match closes.getLast? with
            | none => none
            | some current_price =>
              if current_price = 0 then none
              else
                let combined_price_prediction :=
                  (arima_price_prediction + xgb_price_prediction) / 2
                some {
                  coin_name := py_upper (strip_usd symbol)
                  arima_gain_percent :=
                    round2 ((arima_price_prediction - current_price) / current_price * 100)
                  xgboost_gain_percent :=
                    round2 ((xgb_price_prediction - current_price) / current_price * 100)
                  combined_gain_percent :=
                    round2 ((combined_price_prediction - current_price) / current_price * 100)
                  current_price := round2 current_price
                  arima_prediction := round2 arima_price_prediction
                  xgboost_prediction := round2 xgb_price_prediction
                  combined_prediction := round2 combined_price_prediction }

/-- Embedding of `predict_all_cryptos` (predict.py, lines 217-231): process
the symbols in order, appending each successful result and skipping each
`None`. -/
def predict_all_cryptos {μ : Type} (env : CryptoEnv μ) (symbols : List String) :
    List PredictionResult :=
  symbols.foldl (fun results s =>
    match predict_single_crypto env s with
    | some r => results ++ [r]
    | none => results) []

theorem firstMinBy_cons {α β : Type} [LinearOrder β] (key : α → β) (b x : α) (xs : List α) :
    firstMinBy key b (x :: xs) = firstMinBy key (if key x < key b then x else b) xs := rfl

theorem firstMinBy_mem {α β : Type} [LinearOrder β] (key : α → β) :
    ∀ (l : List α) (b : α), firstMinBy key b l ∈ b :: l := by
  intro l
  induction l with
  | nil => intro b; exact List.mem_singleton.mpr rfl
  | cons x xs ih =>
    intro b
    rw [firstMinBy_cons]
    by_cases hxb : key x < key b
    · rw [if_pos hxb]
      exact List.mem_cons_of_mem b (ih x)
    · rw [if_neg hxb]
      rcases List.mem_cons.mp (ih b) with h | h
      · rw [h]; exact List.mem_cons_self b _
      · exact List.mem_cons_of_mem b (List.mem_cons_of_mem x h)

theorem firstMinBy_le {α β : Type} [LinearOrder β] (key : α → β) :
    ∀ (l : List α) (b : α) (y : α), y ∈ b :: l → key (firstMinBy key b l) ≤ key y := by
  intro l
  induction l with
  | nil =>
    intro b y hy
    rw [List.mem_singleton.mp hy]
    exact le_refl _
  | cons x xs ih =>
    intro b y hy
    rw [firstMinBy_cons]
    have hhead : ∀ b' : α, key (firstMinBy key b' xs) ≤ key b' :=
      fun b' => ih b' b' (List.mem_cons_self b' xs)
    by_cases hxb : key x < key b
    · rw [if_pos hxb]
      rcases List.mem_cons.mp hy with h | h
      · rw [h]
        exact le_trans (hhead x) (le_of_lt hxb)
      · exact ih x y h
    · rw [if_neg hxb]
      rcases List.mem_cons.mp hy with h | h
      · rw [h]
        exact hhead b
      · rcases List.mem_cons.mp h with h2 | h2
        · rw [h2]
          exact le_trans (hhead b) (le_of_not_lt hxb)
        · exact ih b y (List.mem_cons_of_mem b h2)

theorem firstMinBy_first {α β : Type} [LinearOrder β] (key : α → β) :
    ∀ (l : List α) (b : α), ∃ l₁ l₂,
      b :: l = l₁ ++ firstMinBy key b l :: l₂
      ∧ ∀ y ∈ l₁, key (firstMinBy key b l) < key y := by
  intro l
  induction l with
  | nil =>
    intro b
    exact ⟨[], [], rfl, by intro y hy; cases hy⟩
  | cons x xs ih =>
    intro b
    rw [firstMinBy_cons]
    by_cases hxb : key x < key b
    · rw [if_pos hxb]
      obtain ⟨l₁, l₂, hsplit, hstrict⟩ := ih x
      refine ⟨b :: l₁, l₂, ?_, ?_⟩
      · rw [List.cons_append, ← hsplit]
      · intro y hy
        rcases List.mem_cons.mp hy with rfl | hy'
        · exact lt_of_le_of_lt (firstMinBy_le key xs x x (List.mem_cons_self x xs)) hxb
        · exact hstrict y hy'
    · rw [if_neg hxb]
      obtain ⟨l₁, l₂, hsplit, hstrict⟩ := ih b
      cases l₁ with
      | nil =>
        rw [List.nil_append] at hsplit
        have hb : b = firstMinBy key b xs := (List.cons.injEq _ _ _ _).mp hsplit |>.1
        refine ⟨[], x :: xs, ?_, by intro y hy; cases hy⟩
        rw [List.nil_append, ← hb]
      | cons hd tl =>
        rw [List.cons_append] at hsplit
        have hhd : hd = b := ((List.cons.injEq _ _ _ _).mp hsplit).1.symm
        have hxs : xs = tl ++ firstMinBy key b xs :: l₂ :=
          ((List.cons.injEq _ _ _ _).mp hsplit).2
        have hmb : key (firstMinBy key b xs) < key b := by
          have := hstrict hd (List.mem_cons_self hd tl)
          rwa [hhd] at this
        refine ⟨b :: x :: tl, l₂, ?_, ?_⟩
        · rw [List.cons_append, List.cons_append, ← hxs]
        · intro y hy
          rcases List.mem_cons.mp hy with rfl | hy'
          · exact hmb
          · rcases List.mem_cons.mp hy' with rfl | hy''
            · exact lt_of_lt_of_le hmb (le_of_not_lt hxb)
            · exact hstrict y (hhd ▸ List.mem_cons_of_mem hd hy'')

theorem firstMinBy_all_eq {α β : Type} [LinearOrder β] (key : α → β) :
    ∀ (l : List α) (b : α), (∀ x ∈ l, ¬ key x < key b) → firstMinBy key b l = b := by
  intro l
  induction l with
  | nil => intro b _; rfl
  | cons x xs ih =>
    intro b h
    rw [firstMinBy_cons, if_neg (h x (List.mem_cons_self x xs))]
    exact ih b (fun y hy => h y (List.mem_cons_of_mem x hy))

/-- Claim C6: the grid search enumerates exactly the 32 orders of
`p in 0-3, d in 0-1, q in 0-3` with `p` outermost, then `d`, then `q`; a
failing candidate gets MSE `⊤` instead of raising; and the selected entry has
minimal MSE with ties broken by first occurrence in iteration order. -/
theorem arima_grid_search_spec {μ : Type}
    (fit : List ℚ → List ℚ → ℕ × ℕ × ℕ → Option (ℚ × μ)) (train test : List ℚ) :
    arima_grid =
      [(0,0,0), (0,0,1), (0,0,2), (0,0,3), (0,1,0), (0,1,1), (0,1,2), (0,1,3),
       (1,0,0), (1,0,1), (1,0,2), (1,0,3), (1,1,0), (1,1,1), (1,1,2), (1,1,3),
       (2,0,0), (2,0,1), (2,0,2), (2,0,3), (2,1,0), (2,1,1), (2,1,2), (2,1,3),
       (3,0,0), (3,0,1), (3,0,2), (3,0,3), (3,1,0), (3,1,1), (3,1,2), (3,1,3)]
    ∧ (∀ o, fit train test o = none →
        evaluate_arima_model fit train test o = (⊤, none))
    ∧ ∃ best l₁ l₂,
        find_best_arima_order fit train test = some best
        ∧ arima_grid.map (fun o => (o, evaluate_arima_model fit train test o))
            = l₁ ++ best :: l₂
        ∧ (∀ r ∈ arima_grid.map (fun o => (o, evaluate_arima_model fit train test o)),
            best.2.1 ≤ r.2.1)
        ∧ (∀ r ∈ l₁, best.2.1 < r.2.1) := by
  refine ⟨by decide, ?_, ?_⟩
  · intro o h
    unfold evaluate_arima_model
    rw [h]
  · have hgrid : arima_grid = (0, 0, 0) :: arima_grid.tail := by decide
    set f : ℕ × ℕ × ℕ → (ℕ × ℕ × ℕ) × WithTop ℚ × Option μ :=
      fun o => (o, evaluate_arima_model fit train test o) with hf
    set key : (ℕ × ℕ × ℕ) × WithTop ℚ × Option μ → WithTop ℚ := fun x => x.2.1 with hk
    have hmap : arima_grid.map f = f (0, 0, 0) :: (arima_grid.tail).map f := by
      rw [hgrid]; rfl
    have hfind : find_best_arima_order fit train test
        = some (firstMinBy key (f (0, 0, 0)) ((arima_grid.tail).map f)) := by
      unfold find_best_arima_order
      rw [hmap]
      rfl
    obtain ⟨l₁, l₂, hsplit, hstrict⟩ :=
      firstMinBy_first key ((arima_grid.tail).map f) (f (0, 0, 0))
    refine ⟨firstMinBy key (f (0, 0, 0)) ((arima_grid.tail).map f), l₁, l₂,
      hfind, ?_, ?_, hstrict⟩
    · rw [hmap]; exact hsplit
    · intro r hr
      rw [hmap] at hr
      exact firstMinBy_le key ((arima_grid.tail).map f) (f (0, 0, 0)) r hr

/-- Witness for claim C6: a fit oracle that always fails is assigned MSE `⊤`
and no model. -/
theorem arima_grid_search_spec_witness :
    evaluate_arima_model (fun _ _ _ => (none : Option (ℚ × Unit))) [1] [2] (0, 0, 0)
      = (⊤, none) :=
  (arima_grid_search_spec (fun _ _ _ => (none : Option (ℚ × Unit))) [1] [2]).2.1
    (0, 0, 0) rfl

/-- Helper: the grid search always yields a value, and yields the head order
with MSE `⊤` and no model when every candidate fails. -/
theorem find_best_some {μ : Type}
    (fit : List ℚ → List ℚ → ℕ × ℕ × ℕ → Option (ℚ × μ)) (train test : List ℚ) :
    (∃ best, find_best_arima_order fit train test = some best)
    ∧ ((∀ o ∈ arima_grid, fit train test o = none) →
        find_best_arima_order fit train test
          = some ((0, 0, 0), ⊤, (none : Option μ))) := by
  have hgrid : arima_grid = (0, 0, 0) :: arima_grid.tail := by decide
  set f : ℕ × ℕ × ℕ → (ℕ × ℕ × ℕ) × WithTop ℚ × Option μ :=
    fun o => (o, evaluate_arima_model fit train test o) with hf
  set key : (ℕ × ℕ × ℕ) × WithTop ℚ × Option μ → WithTop ℚ := fun x => x.2.1 with hk
  have hmap : arima_grid.map f = f (0, 0, 0) :: (arima_grid.tail).map f := by
    rw [hgrid]; rfl
  have hfind : find_best_arima_order fit train test
      = some (firstMinBy key (f (0, 0, 0)) ((arima_grid.tail).map f)) := by
    unfold find_best_arima_order
    rw [hmap]
    rfl
  constructor
  · exact ⟨_, hfind⟩
  · intro hall
    have h000 : f (0, 0, 0) = ((0, 0, 0), ⊤, none) := by
      simp only [hf, evaluate_arima_model, hall (0, 0, 0) (by decide)]
    rw [hfind, firstMinBy_all_eq, h000]
    intro y hy
    obtain ⟨o, ho, rfl⟩ := List.mem_map.mp hy
    have hofit : fit train test o = none :=
      hall o ((List.tail_sublist arima_grid).subset ho)
    have hfo : f o = (o, ⊤, none) := by
      simp only [hf, evaluate_arima_model, hofit]
    rw [hfo, h000]
    exact lt_irrefl ⊤

/-- Claim C10: `find_best_arima_order` always returns a triple, and when all
32 candidates fail it returns the first order `(0, 0, 0)` with infinite MSE
and no fitted model, so the minimum is well defined even when nothing
converges. -/
theorem find_best_arima_order_total {μ : Type}
    (fit : List ℚ → List ℚ → ℕ × ℕ × ℕ → Option (ℚ × μ)) (train test : List ℚ) :
    (∃ best, find_best_arima_order fit train test = some best)
    ∧ ((∀ o ∈ arima_grid, fit train test o = none) →
        find_best_arima_order fit train test
          = some ((0, 0, 0), ⊤, (none : Option μ))) :=
  find_best_some fit train test

/-- Witness for claim C10: the all-failures oracle yields the first order with
infinite MSE and no model. -/
theorem find_best_arima_order_total_witness :
    find_best_arima_order (fun _ _ _ => (none : Option (ℚ × Unit))) [1] [2]
      = some ((0, 0, 0), ⊤, none) :=
  (find_best_arima_order_total (fun _ _ _ => (none : Option (ℚ × Unit))) [1] [2]).2
    (fun _ _ => rfl)

/-- Claim C5: whenever a prediction completes, the combined forecast is the
unweighted arithmetic mean of the two model forecasts, and the three gain
percentages are each `(forecast - current) / current * 100` against the same
current price (the most recent closing value), each rounded to two
decimals. -/
theorem predict_gain_arithmetic {μ : Type} (env : CryptoEnv μ) (symbol : String)
    (r : PredictionResult) (h : predict_single_crypto env symbol = some r) :
    ∃ closes best current a x,
      env.download symbol = some closes
      ∧ find_best_arima_order env.fitEval
          (closes.take (closes.length * 4 / 5)) (closes.drop (closes.length * 4 / 5))
          = some best
      ∧ env.fullForecast closes best.1 = some a
      ∧ env.xgbPredict closes = some x
      ∧ closes.getLast? = some current
      ∧ current ≠ 0
      ∧ r.current_price = round2 current
      ∧ r.arima_prediction = round2 a
      ∧ r.xgboost_prediction = round2 x
      ∧ r.combined_prediction = round2 ((a + x) / 2)
      ∧ r.arima_gain_percent = round2 ((a - current) / current * 100)
      ∧ r.xgboost_gain_percent = round2 ((x - current) / current * 100)
      ∧ r.combined_gain_percent = round2 (((a + x) / 2 - current) / current * 100) := by
  unfold predict_single_crypto at h
  cases hd : env.download symbol with
  | none =>
    simp only [hd] at h
    exact Option.noConfusion h
  | some closes =>
    simp only [hd] at h
    by_cases hlen : closes.length < 30
    · rw [if_pos hlen] at h
      exact Option.noConfusion h
    · rw [if_neg hlen] at h
      cases hb : find_best_arima_order env.fitEval
          (closes.take (closes.length * 4 / 5)) (closes.drop (closes.length * 4 / 5)) with
      | none =>
        simp only [hb] at h
        exact Option.noConfusion h
      | some best =>
        simp only [hb] at h
        cases hfc : env.fullForecast closes best.1 with
        | none =>
        simp only [hfc] at h
        exact Option.noConfusion h
        | some a =>
          simp only [hfc] at h
          cases hx : env.xgbPredict closes with
          | none =>
        simp only [hx] at h
        exact Option.noConfusion h
          | some x =>
            simp only [hx] at h
            cases hl : closes.getLast? with
            | none =>
        simp only [hl] at h
        exact Option.noConfusion h
            | some current =>
              simp only [hl] at h
              by_cases hc : current = 0
              · rw [if_pos hc] at h
                exact Option.noConfusion h
              · rw [if_neg hc] at h
                have hr : r = {
                    coin_name := py_upper (strip_usd symbol)
                    arima_gain_percent := round2 ((a - current) / current * 100)
                    xgboost_gain_percent := round2 ((x - current) / current * 100)
                    combined_gain_percent :=
                      round2 (((a + x) / 2 - current) / current * 100)
                    current_price := round2 current
                    arima_prediction := round2 a
                    xgboost_prediction := round2 x
                    combined_prediction := round2 ((a + x) / 2) } :=
                  (Option.some.inj h).symm
                exact ⟨closes, best, current, a, x, rfl, hb, hfc, hx, hl, hc,
                  by rw [hr], by rw [hr], by rw [hr], by rw [hr],
                  by rw [hr], by rw [hr], by rw [hr]⟩

/-- Concrete data for the claim C5 witness: a 30-point series ending at 100. -/
def closesC5 : List ℚ := List.replicate 29 1 ++ [100]

/-- Concrete environment for the claim C5 witness: the grid search fails on
every candidate (so the default order is selected), the full-series refit
forecasts 110 and the regression model 120. -/
def envC5 : CryptoEnv Unit :=
  ⟨fun _ => some closesC5, fun _ _ _ => none, fun _ _ => some 110, fun _ => some 120⟩

/-- The record produced by `predict_single_crypto envC5 "BTC-USD"`. -/
def rC5 : PredictionResult :=
  ⟨"BTC", 10, 20, 15, 100, 110, 120, 115⟩

theorem predict_single_envC5 :
    predict_single_crypto envC5 "BTC-USD" = some rC5 := by
  have hfb : find_best_arima_order (fun _ _ _ => (none : Option (ℚ × Unit)))
      (closesC5.take 24) (closesC5.drop 24)
      = some ((0, 0, 0), ⊤, none) :=
    (find_best_some (fun _ _ _ => (none : Option (ℚ × Unit)))
      (closesC5.take 24) (closesC5.drop 24)).2 (fun _ _ => rfl)
  unfold predict_single_crypto
  simp only [envC5]
  rw [if_neg (by decide)]
  rw [show closesC5.length * 4 / 5 = 24 from by decide]
  rw [hfb]
  rw [show closesC5.getLast? = some 100 from by decide]
  simp only [rC5, Option.some.injEq, PredictionResult.mk.injEq]
  rw [if_neg (by norm_num)]
  simp only [Option.some.injEq, PredictionResult.mk.injEq]
  refine ⟨by decide, ?_, ?_, ?_, ?_, ?_, ?_, ?_⟩
  all_goals norm_num [round2, round_half_even]

/-- Witness for claim C5 at the concrete environment. -/
theorem predict_gain_arithmetic_witness :
    ∃ closes best current a x,
      envC5.download "BTC-USD" = some closes
      ∧ find_best_arima_order envC5.fitEval
          (closes.take (closes.length * 4 / 5)) (closes.drop (closes.length * 4 / 5))
          = some best
      ∧ envC5.fullForecast closes best.1 = some a
      ∧ envC5.xgbPredict closes = some x
      ∧ closes.getLast? = some current
      ∧ current ≠ 0
      ∧ rC5.current_price = round2 current
      ∧ rC5.arima_prediction = round2 a
      ∧ rC5.xgboost_prediction = round2 x
      ∧ rC5.combined_prediction = round2 ((a + x) / 2)
      ∧ rC5.arima_gain_percent = round2 ((a - current) / current * 100)
      ∧ rC5.xgboost_gain_percent = round2 ((x - current) / current * 100)
      ∧ rC5.combined_gain_percent = round2 (((a + x) / 2 - current) / current * 100) :=
  predict_gain_arithmetic envC5 "BTC-USD" rC5 predict_single_envC5

theorem predict_all_go {μ : Type} (env : CryptoEnv μ) :
    ∀ (l : List String) (acc : List PredictionResult),
      l.foldl (fun results s =>
        match predict_single_crypto env s with
        | some r => results ++ [r]
        | none => results) acc
      = acc ++ l.filterMap (predict_single_crypto env) := by
  intro l
  induction l with
  | nil =>
    intro acc
    rw [List.foldl_nil, List.filterMap_nil, List.append_nil]
  | cons s l ih =>
    intro acc
    rw [List.foldl_cons, List.filterMap_cons]
    cases h : predict_single_crypto env s with
    | none =>
      simp only [h]
      exact ih acc
    | some r =>
      simp only [h]
      rw [ih (acc ++ [r]), List.append_assoc, List.singleton_append]

theorem predict_all_eq_filterMap {μ : Type} (env : CryptoEnv μ) (symbols : List String) :
    predict_all_cryptos env symbols = symbols.filterMap (predict_single_crypto env) := by
  unfold predict_all_cryptos
  rw [predict_all_go env symbols []]
  rw [List.nil_append]

/-- Claim C7: per-asset failures (missing data, fewer than 30 closing prices,
any exception from the model paths) make `predict_single_crypto` return no
record rather than raising, and `predict_all_cryptos` skips the failed asset
and keeps the rest of the batch. -/
theorem predict_failure_isolation {μ : Type} (env : CryptoEnv μ) (symbol : String)
    (symbols1 symbols2 : List String) :
    (env.download symbol = none → predict_single_crypto env symbol = none)
    ∧ (∀ closes, env.download symbol = some closes → closes.length < 30 →
        predict_single_crypto env symbol = none)
    ∧ (∀ closes, env.download symbol = some closes →
        (∀ o, env.fullForecast closes o = none) →
        predict_single_crypto env symbol = none)
    ∧ (∀ closes, env.download symbol = some closes → env.xgbPredict closes = none →
        predict_single_crypto env symbol = none)
    ∧ (predict_single_crypto env symbol = none →
        predict_all_cryptos env (symbols1 ++ symbol :: symbols2)
          = predict_all_cryptos env symbols1 ++ predict_all_cryptos env symbols2) := by
  refine ⟨?_, ?_, ?_, ?_, ?_⟩
  · intro h
    unfold predict_single_crypto
    rw [h]
  · intro closes h hlen
    unfold predict_single_crypto
    rw [h]
    simp only [if_pos hlen]
  · intro closes h hall
    unfold predict_single_crypto
    rw [h]
    by_cases hlen : closes.length < 30
    · simp only [if_pos hlen]
    · simp only [if_neg hlen]
      cases hb : find_best_arima_order env.fitEval
          (closes.take (closes.length * 4 / 5)) (closes.drop (closes.length * 4 / 5)) with
      | none => rfl
      | some best => simp only [hall best.1]
  · intro closes h hxgb
    unfold predict_single_crypto
    rw [h]
    by_cases hlen : closes.length < 30
    · simp only [if_pos hlen]
    · simp only [if_neg hlen]
      cases hb : find_best_arima_order env.fitEval
          (closes.take (closes.length * 4 / 5)) (closes.drop (closes.length * 4 / 5)) with
      | none => rfl
      | some best =>
        cases hfc : env.fullForecast closes best.1 with
        | none => simp only [hfc]
        | some a => simp only [hfc, hxgb]
  · intro h
    rw [predict_all_eq_filterMap, predict_all_eq_filterMap, predict_all_eq_filterMap,
      List.filterMap_append, List.filterMap_cons]
    simp only [h]

/-- Witness for claim C7: an environment whose download always fails yields no
record, and the batch over two symbols (one of which fails) keeps the rest. -/
theorem predict_failure_isolation_witness :
    predict_single_crypto
        (⟨fun _ => none, fun _ _ _ => none, fun _ _ => none, fun _ => none⟩ :
          CryptoEnv Unit) "BTC-USD"
      = none :=
  (predict_failure_isolation
    (⟨fun _ => none, fun _ _ _ => none, fun _ _ => none, fun _ => none⟩ : CryptoEnv Unit)
    "BTC-USD" [] []).1 rfl

end CryptoAnalysis
